import Mathlib

/-!
Verification of the MNIST IDX decoder (`include/mnist/mnist_reader.hpp`).

The C++ sources are embedded shallowly:
* a file's raw contents are a `List Nat` of byte values (each `< 256` for a
  buffer produced by an actual file read);
* `uint32_t` arithmetic is `Nat` arithmetic reduced `% 2^32` exactly where the
  C++ types force a reduction;
* the `reinterpret_cast<uint32_t*>` load in `read_header` depends on the host
  byte order, which is made explicit through an `Endian` parameter;
* the decoders' observable behaviour is a pair: the list of diagnostic
  messages printed to `std::cout`, and the caller-supplied output container
  after the call (the C++ functions return `void` and fill a container passed
  by reference; `read` failure paths print and leave the container alone).
-/

namespace mnist

/-- Host byte order assumed by the raw `uint32_t` reinterpretation in
`read_header`.  The C++ code loads four bytes as a native `uint32_t`, so which
file byte lands in which octet of the loaded word depends on the host. -/
inductive Endian
  | little
  | big
deriving DecidableEq

/-- The byte-swap expression from `read_header`:
`(value << 24) | ((value << 8) & 0x00FF0000) | ((value >> 8) & 0x0000FF00) | (value >> 24)`
computed on `uint32_t`, i.e. with left shifts reduced `% 2^32`. -/
def bswap32 (value : Nat) : Nat :=
  ((value * 2^24) % 2^32) ||| (((value * 2^8) % 2^32) &&& 0x00FF0000) |||
    ((value / 2^8) &&& 0x0000FF00) ||| (value / 2^24)

/-- The native 32-bit load
`*(reinterpret_cast<uint32_t*>(buffer.get()) + position)`: on a little-endian
host byte `4*position` is the least significant octet, on a big-endian host it
is the most significant one.  Out-of-range reads are padded with 0. -/
def nativeLoad32 (e : Endian) (buffer : List Nat) (position : Nat) : Nat :=
  match e with
  | .little =>
      buffer.getD (4*position) 0 + buffer.getD (4*position+1) 0 * 2^8 +
        buffer.getD (4*position+2) 0 * 2^16 + buffer.getD (4*position+3) 0 * 2^24
  | .big =>
      buffer.getD (4*position) 0 * 2^24 + buffer.getD (4*position+1) 0 * 2^16 +
        buffer.getD (4*position+2) 0 * 2^8 + buffer.getD (4*position+3) 0

/-- `mnist::read_header`: reinterpret the byte buffer as a `uint32_t` array in
host byte order, read word `position`, and byte-swap it. -/
def read_header (e : Endian) (buffer : List Nat) (position : Nat) : Nat :=
  bswap32 (nativeLoad32 e buffer position)

/-- The big-endian 32-bit integer stored at bytes `[4*position, 4*position+4)`
of the buffer: the value the IDX file format declares at that header word.
This is the specification-side reference value `read_header` is meant to
return. -/
def bigEndian32 (buffer : List Nat) (position : Nat) : Nat :=
  buffer.getD (4*position) 0 * 2^24 + buffer.getD (4*position+1) 0 * 2^16 +
    buffer.getD (4*position+2) 0 * 2^8 + buffer.getD (4*position+3) 0

theorem and_mask_mid16 (lo mid hi : Nat) (hlo : lo < 65536) (hmid : mid < 256) :
    (lo + mid * 65536 + hi * 16777216) &&& 16711680 = mid * 65536 := by
  apply Nat.eq_of_testBit_eq
  intro i
  by_cases hi24 : i < 24
  · interval_cases i <;> simp only [Nat.testBit_and] <;> rw [Bool.eq_iff_iff] <;>
      simp [Nat.testBit_to_div_mod] <;> omega
  · have h1 : Nat.testBit 16711680 i = false := by
      apply Nat.testBit_lt_two_pow
      calc (16711680 : Nat) < 2^24 := by norm_num
        _ ≤ 2^i := Nat.pow_le_pow_right (by norm_num) (by omega)
    have h2 : Nat.testBit (mid * 65536) i = false := by
      apply Nat.testBit_lt_two_pow
      calc mid * 65536 < 2^24 := by omega
        _ ≤ 2^i := Nat.pow_le_pow_right (by norm_num) (by omega)
    rw [Nat.testBit_and, h1, h2, Bool.and_false]

theorem and_mask_mid8 (lo mid hi : Nat) (hlo : lo < 256) (hmid : mid < 256) :
    (lo + mid * 256 + hi * 65536) &&& 65280 = mid * 256 := by
  apply Nat.eq_of_testBit_eq
  intro i
  by_cases hi16 : i < 16
  · interval_cases i <;> simp only [Nat.testBit_and] <;> rw [Bool.eq_iff_iff] <;>
      simp [Nat.testBit_to_div_mod] <;> omega
  · have h1 : Nat.testBit 65280 i = false := by
      apply Nat.testBit_lt_two_pow
      calc (65280 : Nat) < 2^16 := by norm_num
        _ ≤ 2^i := Nat.pow_le_pow_right (by norm_num) (by omega)
    have h2 : Nat.testBit (mid * 256) i = false := by
      apply Nat.testBit_lt_two_pow
      calc mid * 256 < 2^16 := by omega
        _ ≤ 2^i := Nat.pow_le_pow_right (by norm_num) (by omega)
    rw [Nat.testBit_and, h1, h2, Bool.and_false]

/-- Byte-swapping the little-endian load of four bytes yields the big-endian
interpretation of those bytes. -/
theorem bswap32_bytes (b0 b1 b2 b3 : Nat)
    (h0 : b0 < 256) (h1 : b1 < 256) (h2 : b2 < 256) (h3 : b3 < 256) :
    bswap32 (b0 + b1 * 2^8 + b2 * 2^16 + b3 * 2^24) =
      b0 * 2^24 + b1 * 2^16 + b2 * 2^8 + b3 := by
  unfold bswap32
  have e1 : ((b0 + b1 * 2^8 + b2 * 2^16 + b3 * 2^24) * 2^24) % 2^32 = b0 * 2^24 := by omega
  have e2 : ((b0 + b1 * 2^8 + b2 * 2^16 + b3 * 2^24) * 2^8) % 2^32
      = b0 * 256 + b1 * 65536 + b2 * 16777216 := by omega
  have e3 : (b0 + b1 * 2^8 + b2 * 2^16 + b3 * 2^24) / 2^8 = b1 + b2 * 256 + b3 * 65536 := by
    omega
  have e4 : (b0 + b1 * 2^8 + b2 * 2^16 + b3 * 2^24) / 2^24 = b3 := by omega
  have m1 : (b0 * 256 + b1 * 65536 + b2 * 16777216) &&& 0x00FF0000 = b1 * 65536 :=
    and_mask_mid16 (b0 * 256) b1 b2 (by omega) h1
  have m2 : (b1 + b2 * 256 + b3 * 65536) &&& 0x0000FF00 = b2 * 256 :=
    and_mask_mid8 b1 b2 b3 h1 h2
  rw [e1, e2, e3, e4, m1, m2, Nat.lor_assoc, Nat.lor_assoc]
  have d1 : (2^8 : Nat) * b2 ||| b3 = 2^8 * b2 + b3 := (Nat.mul_add_lt_is_or h3 b2).symm
  have d2 : (2^16 : Nat) * b1 ||| (2^8 * b2 + b3) = 2^16 * b1 + (2^8 * b2 + b3) :=
    (Nat.mul_add_lt_is_or (by omega) b1).symm
  have d3 : (2^24 : Nat) * b0 ||| (2^16 * b1 + (2^8 * b2 + b3))
      = 2^24 * b0 + (2^16 * b1 + (2^8 * b2 + b3)) :=
    (Nat.mul_add_lt_is_or (by omega) b0).symm
  have r1 : b2 * 256 = (2^8 : Nat) * b2 := by ring
  have r2 : b1 * 65536 = (2^16 : Nat) * b1 := by ring
  have r3 : b0 * 2^24 = (2^24 : Nat) * b0 := by ring
  rw [r1, r2, r3, d1, d2, d3]
  ring

theorem getD_byte_lt (buffer : List Nat) (hb : ∀ b ∈ buffer, b < 256) (k : Nat) :
    buffer.getD k 0 < 256 := by
  rw [List.getD_eq_getElem?_getD]
  rcases h : buffer[k]? with _ | b
  · simp
  · have hmem : b ∈ buffer := List.getElem?_mem h
    simpa using hb b hmem

/-- On a little-endian host, `read_header` returns the big-endian value that
the file stores at the requested header word. -/
theorem read_header_little_eq_bigEndian32 (buffer : List Nat) (position : Nat)
    (hb : ∀ b ∈ buffer, b < 256) :
    read_header Endian.little buffer position = bigEndian32 buffer position := by
  unfold read_header nativeLoad32 bigEndian32
  exact bswap32_bytes _ _ _ _ (getD_byte_lt buffer hb _) (getD_byte_lt buffer hb _)
    (getD_byte_lt buffer hb _) (getD_byte_lt buffer hb _)

theorem bigEndian32_lt (buffer : List Nat) (position : Nat)
    (hb : ∀ b ∈ buffer, b < 256) : bigEndian32 buffer position < 2^32 := by
  unfold bigEndian32
  have g0 := getD_byte_lt buffer hb (4*position)
  have g1 := getD_byte_lt buffer hb (4*position+1)
  have g2 := getD_byte_lt buffer hb (4*position+2)
  have g3 := getD_byte_lt buffer hb (4*position+3)
  omega

/-- `std::vector::resize(n)`: keep the first `n` elements, append
default-constructed elements when growing. -/
def listResize (l : List α) (n : Nat) (d : α) : List α :=
  l.take n ++ List.replicate (n - l.length) d

theorem length_listResize (l : List α) (n : Nat) (d : α) :
    (listResize l n d).length = n := by
  simp only [listResize, List.length_append, List.length_take, List.length_replicate]
  omega

/-- `images[i][j] = v`: load row `i`, store `v` at column `j`, write the row
back (`List.set` is a no-op out of range, as is `getD`'s default). -/
def store_pixel (imgs : List (List Nat)) (i j v : Nat) : List (List Nat) :=
  imgs.set i ((imgs.getD i []).set j v)

/-- The pixel-copy loop of `read_mnist_image_file`: for each image index
`i < count`, `push_back` one freshly created image (`func()`, modelled by the
constant list `dflt`), then store `rc = rows*columns` consecutive payload
bytes into row `i`; `pix k` is overall payload byte `k`, matching the running
`*image_buffer++` pointer. -/
def image_loop (dflt : List Nat) (rc : Nat) (pix : Nat → Nat) (count : Nat)
    (images0 : List (List Nat)) : List (List Nat) :=
  (List.range count).foldl
    (fun imgs i =>
      (List.range rc).foldl (fun im j => store_pixel im i j (pix (i * rc + j)))
        (imgs ++ [dflt]))
    images0

/-- The label-copy loop of `read_mnist_label_file`: `labels[i] = byte i`. -/
def label_loop (pix : Nat → Nat) (count : Nat) (labels0 : List Nat) : List Nat :=
  (List.range count).foldl (fun ls i => ls.set i (pix i)) labels0

/-- `if(limit > 0 && count > limit){ count = limit; }` -/
def effective_count (count limit : Nat) : Nat :=
  if 0 < limit ∧ limit < count then limit else count

theorem effective_count_eq (count limit : Nat) :
    effective_count count limit = if limit = 0 then count else min count limit := by
  unfold effective_count
  by_cases hlt : 0 < limit ∧ limit < count
  · rw [if_pos hlt, if_neg (by omega)]
    omega
  · rw [if_neg hlt]
    by_cases h0 : limit = 0
    · rw [if_pos h0]
    · rw [if_neg h0]
      omega

theorem range_foldl_set (pix : Nat → Nat) :
    ∀ (n : Nat) (l : List Nat), n ≤ l.length →
      (List.range n).foldl (fun im j => im.set j (pix j)) l
        = (List.range n).map pix ++ l.drop n := by
  intro n
  induction n with
  | zero => intro l _; simp
  | succ m ih =>
      intro l hl
      rw [List.range_succ, List.foldl_append]
      simp only [List.foldl_cons, List.foldl_nil]
      rw [ih l (by omega)]
      have hm : m < l.length := by omega
      rw [List.set_append_right _ _ (by simp)]
      have hz : m - ((List.range m).map pix).length = 0 := by simp
      rw [hz, List.drop_eq_getElem_cons hm, List.set_cons_zero]
      simp

theorem store_pixel_last (front : List (List Nat)) (i : Nat) (hi : front.length = i)
    (x : List Nat) (j v : Nat) :
    store_pixel (front ++ [x]) i j v = front ++ [x.set j v] := by
  unfold store_pixel
  subst hi
  have h1 : (front ++ [x]).getD front.length [] = x := by
    rw [List.getD_eq_getElem?_getD, List.getElem?_append_right (le_refl _)]
    simp
  rw [h1, List.set_append_right _ _ (le_refl _)]
  simp

theorem inner_loop_last (front : List (List Nat)) (i : Nat) (hi : front.length = i)
    (f : Nat → Nat) :
    ∀ (js : List Nat) (x : List Nat),
      js.foldl (fun im j => store_pixel im i j (f j)) (front ++ [x])
        = front ++ [js.foldl (fun l j => l.set j (f j)) x] := by
  intro js
  induction js with
  | nil => intro x; rfl
  | cons j js ih =>
      intro x
      simp only [List.foldl_cons]
      rw [store_pixel_last front i hi, ih]

theorem image_loop_eq_map (dflt : List Nat) (rc : Nat) (pix : Nat → Nat) :
    ∀ count : Nat,
      image_loop dflt rc pix count []
        = (List.range count).map
            (fun i => (List.range rc).foldl (fun l j => l.set j (pix (i * rc + j))) dflt) := by
  intro count
  induction count with
  | zero => rfl
  | succ m ih =>
      unfold image_loop at ih ⊢
      rw [List.range_succ, List.foldl_append]
      simp only [List.foldl_cons, List.foldl_nil]
      rw [ih]
      rw [inner_loop_last _ m (by simp) _ (List.range rc) dflt]
      simp

theorem image_loop_eq_slices (dflt : List Nat) (rc : Nat) (pix : Nat → Nat)
    (count : Nat) (hd : dflt.length = rc) :
    image_loop dflt rc pix count []
      = (List.range count).map (fun i => (List.range rc).map (fun j => pix (i * rc + j))) := by
  rw [image_loop_eq_map]
  apply List.map_congr_left
  intro i _
  rw [range_foldl_set _ rc dflt (by omega)]
  simp [hd]

theorem label_loop_eq_map (pix : Nat → Nat) (count : Nat) (labels0 : List Nat)
    (hlen : labels0.length = count) :
    label_loop pix count labels0 = (List.range count).map pix := by
  unfold label_loop
  rw [range_foldl_set pix count labels0 (by omega)]
  simp [hlen]

theorem range_map_getD_eq_take_drop (l : List Nat) (s n : Nat) (h : s + n ≤ l.length) :
    (List.range n).map (fun j => l.getD (s + j) 0) = (l.drop s).take n := by
  apply List.ext_getElem
  · simp
    omega
  · intro i h1 h2
    have hi : i < n := by simpa using h1
    have hsil : s + i < l.length := by omega
    simp only [List.getElem_map, List.getElem_range, List.getElem_take, List.getElem_drop]
    rw [List.getD_eq_getElem?_getD, List.getElem?_eq_getElem hsil]
    rfl

/-- Console diagnostic printed by both decoders when the file cannot be opened. -/
def openMsg : String := "Error opening file"

/-- Console diagnostic printed by both decoders on a magic-number mismatch. -/
def magicMsg : String := "Invalid magic number, probably not a MNIST file"

/-- Console diagnostic printed by both decoders when the size check fails. -/
def corruptMsg : String :=
  "The file is not large enough to hold all the data, probably corrupted"

/-- `mnist::read_mnist_image_file`.  `opens` models `if(!file)`; `buffer` is
the whole-file read (so `buffer.length` is `size = file.tellg()`); `dflt` is
the image object the functor `func()` creates; `images0` is the contents of
the container the caller passed by reference.  The result is the pair
(console log, container after the call).  The size comparison
`size < count * rows * columns + 16` happens in `uint32_t`, hence `% 2^32`;
likewise the inner loop bound `j < rows * columns` multiplies two `uint32_t`
values, so the per-image pixel count (and the stride of the running
`*image_buffer++` pointer) is the product reduced `% 2^32`. -/
def read_mnist_image_file (e : Endian) (opens : Bool) (buffer : List Nat)
    (limit : Nat) (dflt : List Nat) (images0 : List (List Nat)) :
    List String × List (List Nat) :=
  if opens = false then ([openMsg], images0)
  else if read_header e buffer 0 ≠ 0x803 then ([magicMsg], images0)
  else if buffer.length <
      (read_header e buffer 1 * read_header e buffer 2 * read_header e buffer 3 + 16)
        % 2^32 then
    ([corruptMsg], images0)
  else
    ([], image_loop dflt ((read_header e buffer 2 * read_header e buffer 3) % 2^32)
          (fun k => buffer.getD (16 + k) 0)
          (effective_count (read_header e buffer 1) limit) images0)

/-- `mnist::read_mnist_label_file`, same conventions as the image reader.  The
limit is applied to `count` first, then the container is `resize`d and the
first `count` payload bytes are copied.  The size comparison
`size < count + 8` happens in `uint32_t`, hence `% 2^32`. -/
def read_mnist_label_file (e : Endian) (opens : Bool) (buffer : List Nat)
    (limit : Nat) (labels0 : List Nat) : List String × List Nat :=
  if opens = false then ([openMsg], labels0)
  else if read_header e buffer 0 ≠ 0x801 then ([magicMsg], labels0)
  else if buffer.length < (read_header e buffer 1 + 8) % 2^32 then
    ([corruptMsg], labels0)
  else
    ([], label_loop (fun k => buffer.getD (8 + k) 0)
          (effective_count (read_header e buffer 1) limit)
          (listResize labels0 (effective_count (read_header e buffer 1) limit) 0))

theorem read_image_file_valid (buffer dflt : List Nat) (limit count rows columns : Nat)
    (hb : ∀ b ∈ buffer, b < 256)
    (hm : bigEndian32 buffer 0 = 0x803)
    (hc : bigEndian32 buffer 1 = count)
    (hr : bigEndian32 buffer 2 = rows)
    (hcol : bigEndian32 buffer 3 = columns)
    (hsz : count * rows * columns + 16 ≤ buffer.length) :
    read_mnist_image_file Endian.little true buffer limit dflt []
      = ([], (List.range (effective_count count limit)).map
          (fun i => (List.range ((rows * columns) % 2^32)).foldl
            (fun l j => l.set j (buffer.getD (16 + (i * ((rows * columns) % 2^32) + j)) 0))
            dflt)) := by
  have h0 := read_header_little_eq_bigEndian32 buffer 0 hb
  have h1 := read_header_little_eq_bigEndian32 buffer 1 hb
  have h2 := read_header_little_eq_bigEndian32 buffer 2 hb
  have h3 := read_header_little_eq_bigEndian32 buffer 3 hb
  rw [hm] at h0
  rw [hc] at h1
  rw [hr] at h2
  rw [hcol] at h3
  have hszmod : ¬ buffer.length < (count * rows * columns + 16) % 2^32 := by
    have := Nat.mod_le (count * rows * columns + 16) (2^32)
    omega
  unfold read_mnist_image_file
  rw [if_neg (by simp)]
  rw [h0, h1, h2, h3]
  rw [if_neg (by simp), if_neg hszmod]
  rw [image_loop_eq_map]

theorem read_label_file_valid (buffer : List Nat) (limit count : Nat)
    (hb : ∀ b ∈ buffer, b < 256)
    (hm : bigEndian32 buffer 0 = 0x801)
    (hc : bigEndian32 buffer 1 = count)
    (hsz : count + 8 ≤ buffer.length) :
    read_mnist_label_file Endian.little true buffer limit []
      = ([], (List.range (effective_count count limit)).map
          (fun i => buffer.getD (8 + i) 0)) := by
  have h0 := read_header_little_eq_bigEndian32 buffer 0 hb
  have h1 := read_header_little_eq_bigEndian32 buffer 1 hb
  rw [hm] at h0
  rw [hc] at h1
  have hszmod : ¬ buffer.length < (count + 8) % 2^32 := by
    have := Nat.mod_le (count + 8) (2^32)
    omega
  unfold read_mnist_label_file
  rw [if_neg (by simp)]
  rw [h0, h1]
  rw [if_neg (by simp), if_neg hszmod]
  rw [label_loop_eq_map _ _ _ (length_listResize _ _ _)]

/-- `mnist::MNIST_dataset`, at the instantiation used by `read_dataset`:
an image is a row of pixel bytes, a label is a byte value. -/
structure MNIST_dataset where
  training_images : List (List Nat)
  test_images : List (List Nat)
  training_labels : List Nat
  test_labels : List Nat
deriving DecidableEq

/-- `MNIST_dataset::resize_training`: when the training images are larger than
`new_size`, `resize` both training containers to `new_size` (a
default-constructed image is the empty row, a default label is 0); otherwise
do nothing. -/
def resize_training (d : MNIST_dataset) (new_size : Nat) : MNIST_dataset :=
  if new_size < d.training_images.length then
    { d with training_images := listResize d.training_images new_size []
           , training_labels := listResize d.training_labels new_size 0 }
  else d

/-- `MNIST_dataset::resize_test`, mirroring `resize_training` on the test
split. -/
def resize_test (d : MNIST_dataset) (new_size : Nat) : MNIST_dataset :=
  if new_size < d.test_images.length then
    { d with test_images := listResize d.test_images new_size []
           , test_labels := listResize d.test_labels new_size 0 }
  else d

/-- `mnist::read_dataset_direct` (the assembler behind `read_dataset`): decode
the four canonical files into one dataset.  Each input file is modelled by the
pair of its open-success flag and its raw byte contents; the image-creating
functor is `[]{ return Image(1 * 28 * 28); }`, i.e. a row of `1*28*28` zero
pixels. -/
def read_dataset_direct (e : Endian)
    (trainImagesFile trainLabelsFile testImagesFile testLabelsFile : Bool × List Nat)
    (training_limit test_limit : Nat) : MNIST_dataset :=
  { training_images := (read_mnist_image_file e trainImagesFile.1 trainImagesFile.2
      training_limit (List.replicate (1 * 28 * 28) 0) []).2
  , training_labels := (read_mnist_label_file e trainLabelsFile.1 trainLabelsFile.2
      training_limit []).2
  , test_images := (read_mnist_image_file e testImagesFile.1 testImagesFile.2
      test_limit (List.replicate (1 * 28 * 28) 0) []).2
  , test_labels := (read_mnist_label_file e testLabelsFile.1 testLabelsFile.2
      test_limit []).2 }

/-- Safety monitor derived from the image decoder's control flow: `true` iff
the decoder reaches the pixel-copy loop on this input (file opens, magic
matches, the `uint32_t` size check passes) and the loop's source byte range
`[16, 16 + effective_count * ((rows * columns) % 2^32))` extends past the end
of the buffer — the running `*image_buffer++` pointer advances the
`uint32_t`-wrapped product `rows * columns` once per image, and would be
dereferenced out of bounds. -/
def image_decode_oob (e : Endian) (opens : Bool) (buffer : List Nat)
    (limit : Nat) : Bool :=
  opens &&
    decide (read_header e buffer 0 = 0x803) &&
    decide (¬ buffer.length <
      (read_header e buffer 1 * read_header e buffer 2 * read_header e buffer 3 + 16)
        % 2^32) &&
    decide (buffer.length <
      16 + effective_count (read_header e buffer 1) limit *
        ((read_header e buffer 2 * read_header e buffer 3) % 2^32))

theorem effective_count_le (count limit : Nat) :
    effective_count count limit ≤ count := by
  unfold effective_count
  split
  · omega
  · omega

theorem read_image_file_valid_length (buffer dflt : List Nat)
    (limit count rows columns : Nat)
    (hb : ∀ b ∈ buffer, b < 256)
    (hm : bigEndian32 buffer 0 = 0x803)
    (hc : bigEndian32 buffer 1 = count)
    (hr : bigEndian32 buffer 2 = rows)
    (hcol : bigEndian32 buffer 3 = columns)
    (hsz : count * rows * columns + 16 ≤ buffer.length) :
    (read_mnist_image_file Endian.little true buffer limit dflt []).2.length
      = effective_count count limit := by
  rw [read_image_file_valid buffer dflt limit count rows columns hb hm hc hr hcol hsz]
  simp

theorem read_label_file_valid_length (buffer : List Nat) (limit count : Nat)
    (hb : ∀ b ∈ buffer, b < 256)
    (hm : bigEndian32 buffer 0 = 0x801)
    (hc : bigEndian32 buffer 1 = count)
    (hsz : count + 8 ≤ buffer.length) :
    (read_mnist_label_file Endian.little true buffer limit []).2.length
      = effective_count count limit := by
  rw [read_label_file_valid buffer limit count hb hm hc hsz]
  simp

/-- C8: decoding the synthetic image file with big-endian header
`(0x803, 2, 2, 2)` and payload `[1,2,3,4,5,6,7,8]` (no limit) yields exactly
the images `[1,2,3,4]` and `[5,6,7,8]` in order, and decoding the synthetic
label file with header `(0x801, 3)` and payload `[7,2,9]` yields exactly the
labels `[7,2,9]` in order. -/
theorem synthetic_files_decode :
    read_mnist_image_file Endian.little true
        [0,0,8,3, 0,0,0,2, 0,0,0,2, 0,0,0,2, 1,2,3,4,5,6,7,8] 0 [0,0,0,0] []
      = ([], [[1,2,3,4],[5,6,7,8]])
    ∧ read_mnist_label_file Endian.little true
        [0,0,8,1, 0,0,0,3, 7,2,9] 0 []
      = ([], [7,2,9]) := by
  decide

/-- C1 (refuting evaluation): the size check `size < count*rows*columns + 16`
runs in `uint32_t`, so the product wraps.  For the 18-byte file with header
`(0x803, 0xFFFFFFFF, 2, 1)` and two payload bytes, the exact product
8589934590 exceeds `size - 16 = 2`, yet the decoder reports no corrupt-file
error and enters the pixel-copy loop (producing an image under `limit = 1`).
For the 16-byte file with header `(0x803, 0x10000, 0x10000, 1)` and no
payload at all, the wrapped check passes as well and the loop's source range
extends 2^32 bytes past the end of the buffer: a genuine out-of-bounds read. -/
theorem image_size_check_wraparound :
    bigEndian32 [0,0,8,3, 255,255,255,255, 0,0,0,2, 0,0,0,1, 7,9] 1 *
        bigEndian32 [0,0,8,3, 255,255,255,255, 0,0,0,2, 0,0,0,1, 7,9] 2 *
        bigEndian32 [0,0,8,3, 255,255,255,255, 0,0,0,2, 0,0,0,1, 7,9] 3
      > ([0,0,8,3, 255,255,255,255, 0,0,0,2, 0,0,0,1, 7,9] : List Nat).length - 16
    ∧ read_mnist_image_file Endian.little true
        [0,0,8,3, 255,255,255,255, 0,0,0,2, 0,0,0,1, 7,9] 1 [0,0] []
      = ([], [[7,9]])
    ∧ image_decode_oob Endian.little true
        [0,0,8,3, 0,1,0,0, 0,1,0,0, 0,0,0,1] 0 = true := by
  decide

/-- C3 (counterexample): `read_header` does not return the big-endian header
value on every host.  On a big-endian host the native load of the bytes
`[0,0,0,1]` is already 1, and the unconditional byte swap turns it into
`0x01000000 ≠ 1`.  The code's reinterpret-then-swap is only correct on
little-endian hosts. -/
theorem read_header_big_endian_counterexample :
    read_header Endian.big [0,0,0,1] 0 ≠ bigEndian32 [0,0,0,1] 0 := by
  decide

/-- C3 (amended): on a little-endian host, `read_header buffer position`
returns the big-endian 32-bit integer stored at bytes
`[4*position, 4*position+4)`, i.e. output byte 0 = input byte 3, byte 1 =
input byte 2, byte 2 = input byte 1, byte 3 = input byte 0. -/
theorem read_header_little_endian_correct (buffer : List Nat) (position : Nat)
    (hb : ∀ b ∈ buffer, b < 256) (_hlen : (position + 1) * 4 ≤ buffer.length) :
    read_header Endian.little buffer position
      = buffer.getD (4*position) 0 * 2^24 + buffer.getD (4*position+1) 0 * 2^16 +
          buffer.getD (4*position+2) 0 * 2^8 + buffer.getD (4*position+3) 0 := by
  have h := read_header_little_eq_bigEndian32 buffer position hb
  unfold bigEndian32 at h
  exact h

theorem read_header_little_endian_correct_witness :
    read_header Endian.little [0,0,8,3] 0 = 2051 := by
  rw [read_header_little_endian_correct [0,0,8,3] 0 (by decide) (by decide)]
  decide

/-- C5: a file whose leading big-endian 32-bit word differs from the expected
magic number (0x803 for images, 0x801 for labels) is rejected by the
respective decoder: it prints the invalid-magic diagnostic and materializes
no data — the caller's container comes back exactly as it went in. -/
theorem magic_number_rejection (buffer dflt : List Nat) (limit : Nat)
    (images0 : List (List Nat)) (labels0 : List Nat)
    (hb : ∀ b ∈ buffer, b < 256) :
    (bigEndian32 buffer 0 ≠ 0x803 →
      read_mnist_image_file Endian.little true buffer limit dflt images0
        = ([magicMsg], images0))
    ∧ (bigEndian32 buffer 0 ≠ 0x801 →
      read_mnist_label_file Endian.little true buffer limit labels0
        = ([magicMsg], labels0)) := by
  have h0 := read_header_little_eq_bigEndian32 buffer 0 hb
  constructor
  · intro hmagic
    unfold read_mnist_image_file
    rw [if_neg (by simp), if_pos (by rw [h0]; exact hmagic)]
  · intro hmagic
    unfold read_mnist_label_file
    rw [if_neg (by simp), if_pos (by rw [h0]; exact hmagic)]

theorem magic_number_rejection_witness :
    read_mnist_image_file Endian.little true [0,0,0,0] 0 [] [[9]]
      = ([magicMsg], [[9]])
    ∧ read_mnist_label_file Endian.little true [0,0,0,0] 0 [5]
      = ([magicMsg], [5]) :=
  ⟨(magic_number_rejection [0,0,0,0] [] 0 [[9]] [5] (by decide)).1 (by decide),
   (magic_number_rejection [0,0,0,0] [] 0 [[9]] [5] (by decide)).2 (by decide)⟩

/-- C6: `resize_training n` with `n` below the current training size leaves
both training containers with length exactly `n`; with `n` at or above the
current size the dataset is completely unchanged — and likewise for
`resize_test` on the test split. -/
theorem resize_shrink_spec (d : MNIST_dataset) (n : Nat) :
    (n < d.training_images.length →
      (resize_training d n).training_images.length = n
        ∧ (resize_training d n).training_labels.length = n)
    ∧ (d.training_images.length ≤ n → resize_training d n = d)
    ∧ (n < d.test_images.length →
      (resize_test d n).test_images.length = n
        ∧ (resize_test d n).test_labels.length = n)
    ∧ (d.test_images.length ≤ n → resize_test d n = d) := by
  refine ⟨?_, ?_, ?_, ?_⟩
  · intro h
    unfold resize_training
    rw [if_pos h]
    exact ⟨length_listResize _ _ _, length_listResize _ _ _⟩
  · intro h
    unfold resize_training
    rw [if_neg (by omega)]
  · intro h
    unfold resize_test
    rw [if_pos h]
    exact ⟨length_listResize _ _ _, length_listResize _ _ _⟩
  · intro h
    unfold resize_test
    rw [if_neg (by omega)]

theorem resize_shrink_spec_witness :
    ((resize_training ⟨[[1],[2]], [[3]], [7,8], [9]⟩ 1).training_images.length = 1
      ∧ (resize_training ⟨[[1],[2]], [[3]], [7,8], [9]⟩ 1).training_labels.length = 1)
    ∧ resize_test ⟨[[1],[2]], [[3]], [7,8], [9]⟩ 5 = ⟨[[1],[2]], [[3]], [7,8], [9]⟩ :=
  ⟨(resize_shrink_spec ⟨[[1],[2]], [[3]], [7,8], [9]⟩ 1).1 (by decide),
   (resize_shrink_spec ⟨[[1],[2]], [[3]], [7,8], [9]⟩ 5).2.2.2 (by decide)⟩

/-- C9 (counterexample): the decoders do not report failures through "an
explicit error result distinguishable from a successful decode that happens
to be empty".  On a magic-mismatch failure the label decoder hands the caller
exactly the same container (`[]`) as a successful decode of a valid file
declaring zero labels; only the console text differs. -/
theorem error_result_indistinguishable_counterexample :
    (read_mnist_label_file Endian.little true [0,0,0,0] 0 []).1 = [magicMsg]
    ∧ (read_mnist_label_file Endian.little true [0,0,8,1, 0,0,0,0] 0 []).1 = []
    ∧ (read_mnist_label_file Endian.little true [0,0,0,0] 0 []).2
        = (read_mnist_label_file Endian.little true [0,0,8,1, 0,0,0,0] 0 []).2 := by
  decide

/-- C9 (amended): the three failure kinds — open failure, magic mismatch,
size-check failure — are each reported, but only as a console diagnostic:
the three messages are pairwise distinct and each failure path prints exactly
its own message, while the value delivered to the caller is the untouched
container, indistinguishable from a successful decode of zero items. -/
theorem error_reporting_diagnostics (e : Endian) (buffer dflt : List Nat)
    (limit : Nat) (images0 : List (List Nat)) (labels0 : List Nat) :
    (openMsg ≠ magicMsg ∧ openMsg ≠ corruptMsg ∧ magicMsg ≠ corruptMsg)
    ∧ ((read_mnist_image_file e false buffer limit dflt images0).1 = [openMsg])
    ∧ (read_header e buffer 0 ≠ 0x803 →
        (read_mnist_image_file e true buffer limit dflt images0).1 = [magicMsg])
    ∧ (read_header e buffer 0 = 0x803 →
        buffer.length < (read_header e buffer 1 * read_header e buffer 2 *
          read_header e buffer 3 + 16) % 2^32 →
        (read_mnist_image_file e true buffer limit dflt images0).1 = [corruptMsg])
    ∧ ((read_mnist_label_file e false buffer limit labels0).1 = [openMsg])
    ∧ (read_header e buffer 0 ≠ 0x801 →
        (read_mnist_label_file e true buffer limit labels0).1 = [magicMsg])
    ∧ (read_header e buffer 0 = 0x801 →
        buffer.length < (read_header e buffer 1 + 8) % 2^32 →
        (read_mnist_label_file e true buffer limit labels0).1 = [corruptMsg]) := by
  refine ⟨by decide, ?_, ?_, ?_, ?_, ?_, ?_⟩
  · unfold read_mnist_image_file
    rw [if_pos rfl]
  · intro hmagic
    unfold read_mnist_image_file
    rw [if_neg (by simp), if_pos hmagic]
  · intro hmagic hsize
    unfold read_mnist_image_file
    rw [if_neg (by simp), if_neg (by simp [hmagic]), if_pos hsize]
  · unfold read_mnist_label_file
    rw [if_pos rfl]
  · intro hmagic
    unfold read_mnist_label_file
    rw [if_neg (by simp), if_pos hmagic]
  · intro hmagic hsize
    unfold read_mnist_label_file
    rw [if_neg (by simp), if_neg (by simp [hmagic]), if_pos hsize]

theorem error_reporting_diagnostics_witness :
    (read_mnist_image_file Endian.little true [9,9,9,9] 0 [] []).1 = [magicMsg] :=
  (error_reporting_diagnostics Endian.little [9,9,9,9] [] 0 [] []).2.2.1 (by decide)

/-- C10: on every failure path of both decoders — file fails to open, magic
number mismatches, or the size check fails — the function returns with the
caller-supplied output container exactly as it was on entry; the container is
only ever touched after all validations have passed. -/
theorem failure_paths_preserve_output (e : Endian) (buffer dflt : List Nat)
    (limit : Nat) (images0 : List (List Nat)) (labels0 : List Nat) :
    (read_mnist_image_file e false buffer limit dflt images0 = ([openMsg], images0))
    ∧ (read_header e buffer 0 ≠ 0x803 →
        read_mnist_image_file e true buffer limit dflt images0 = ([magicMsg], images0))
    ∧ (read_header e buffer 0 = 0x803 →
        buffer.length < (read_header e buffer 1 * read_header e buffer 2 *
          read_header e buffer 3 + 16) % 2^32 →
        read_mnist_image_file e true buffer limit dflt images0 = ([corruptMsg], images0))
    ∧ (read_mnist_label_file e false buffer limit labels0 = ([openMsg], labels0))
    ∧ (read_header e buffer 0 ≠ 0x801 →
        read_mnist_label_file e true buffer limit labels0 = ([magicMsg], labels0))
    ∧ (read_header e buffer 0 = 0x801 →
        buffer.length < (read_header e buffer 1 + 8) % 2^32 →
        read_mnist_label_file e true buffer limit labels0 = ([corruptMsg], labels0)) := by
  refine ⟨?_, ?_, ?_, ?_, ?_, ?_⟩
  · unfold read_mnist_image_file
    rw [if_pos rfl]
  · intro hmagic
    unfold read_mnist_image_file
    rw [if_neg (by simp), if_pos hmagic]
  · intro hmagic hsize
    unfold read_mnist_image_file
    rw [if_neg (by simp), if_neg (by simp [hmagic]), if_pos hsize]
  · unfold read_mnist_label_file
    rw [if_pos rfl]
  · intro hmagic
    unfold read_mnist_label_file
    rw [if_neg (by simp), if_pos hmagic]
  · intro hmagic hsize
    unfold read_mnist_label_file
    rw [if_neg (by simp), if_neg (by simp [hmagic]), if_pos hsize]

theorem failure_paths_preserve_output_witness :
    read_mnist_image_file Endian.little true [9,9,9,9] 0 [] [[1,2]]
      = ([magicMsg], [[1,2]]) :=
  (failure_paths_preserve_output Endian.little [9,9,9,9] [] 0 [[1,2]] []).2.1
    (by decide)

/-- C2 (amended): for a well-formed image file (magic 0x803, enough bytes for
the declared geometry) whose `rows*columns` does not overflow `uint32_t`
(`rows * columns < 2^32`, so the pixel-loop bound does not wrap), decoded
into a fresh container with an image object of the declared size, the decoder
produces exactly `min(count, limit)` images when `limit > 0` and exactly
`count` images when `limit = 0`, in file order: image `i` holds the
`rows*columns` consecutive payload bytes starting at offset
`16 + i*rows*columns`, and every produced image has exactly `rows*columns`
elements. -/
theorem read_image_file_limit_decode
    (buffer dflt : List Nat) (limit count rows columns : Nat)
    (hb : ∀ b ∈ buffer, b < 256)
    (hm : bigEndian32 buffer 0 = 0x803)
    (hc : bigEndian32 buffer 1 = count)
    (hr : bigEndian32 buffer 2 = rows)
    (hcol : bigEndian32 buffer 3 = columns)
    (hsz : count * rows * columns + 16 ≤ buffer.length)
    (hd : dflt.length = rows * columns)
    (hrc : rows * columns < 2^32) :
    read_mnist_image_file Endian.little true buffer limit dflt []
      = ([], (List.range (if limit = 0 then count else min count limit)).map
          (fun i => (buffer.drop (16 + i * (rows * columns))).take (rows * columns)))
    ∧ ∀ img ∈ (read_mnist_image_file Endian.little true buffer limit dflt []).2,
        img.length = rows * columns := by
  have hmul : count * rows * columns = count * (rows * columns) := by ring
  have hslice : ∀ i, i < count →
      (List.range (rows * columns)).foldl
        (fun l j => l.set j (buffer.getD (16 + (i * (rows * columns) + j)) 0)) dflt
      = (buffer.drop (16 + i * (rows * columns))).take (rows * columns) := by
    intro i hi
    rw [range_foldl_set (fun j => buffer.getD (16 + (i * (rows * columns) + j)) 0)
      (rows * columns) dflt (by omega)]
    have hdrop : dflt.drop (rows * columns) = [] := by
      rw [← hd, List.drop_length]
    rw [hdrop, List.append_nil]
    have hfun : (fun j => buffer.getD (16 + (i * (rows * columns) + j)) 0)
        = (fun j => buffer.getD ((16 + i * (rows * columns)) + j) 0) := by
      funext j
      congr 1
      ring
    rw [hfun]
    exact range_map_getD_eq_take_drop buffer (16 + i * (rows * columns)) (rows * columns)
      (by
        have h1 : (i + 1) * (rows * columns) ≤ count * (rows * columns) :=
          Nat.mul_le_mul (by omega) (le_refl (rows * columns))
        have h2 : (i + 1) * (rows * columns) = i * (rows * columns) + (rows * columns) := by
          ring
        omega)
  have heffle := effective_count_le count limit
  have hmain : read_mnist_image_file Endian.little true buffer limit dflt []
      = ([], (List.range (effective_count count limit)).map
          (fun i => (buffer.drop (16 + i * (rows * columns))).take (rows * columns))) := by
    rw [read_image_file_valid buffer dflt limit count rows columns hb hm hc hr hcol hsz]
    rw [Nat.mod_eq_of_lt hrc]
    congr 1
    apply List.map_congr_left
    intro i hi
    have hic : i < count := by
      have := List.mem_range.mp hi
      omega
    exact hslice i hic
  constructor
  · rw [hmain, effective_count_eq]
  · intro img hmem
    rw [hmain] at hmem
    simp only [List.mem_map, List.mem_range] at hmem
    obtain ⟨i, hi, rfl⟩ := hmem
    have hbound : (16 + i * (rows * columns)) + (rows * columns) ≤ buffer.length := by
      have h1 : (i + 1) * (rows * columns) ≤ count * (rows * columns) :=
        Nat.mul_le_mul (by omega) (le_refl (rows * columns))
      have h2 : (i + 1) * (rows * columns) = i * (rows * columns) + (rows * columns) := by
        ring
      omega
    simp only [List.length_take, List.length_drop]
    omega

theorem read_image_file_limit_decode_witness :
    read_mnist_image_file Endian.little true
        [0,0,8,3, 0,0,0,2, 0,0,0,1, 0,0,0,2, 1,2,3,4] 1 [0,0] []
      = ([], (List.range (if (1 : Nat) = 0 then 2 else min 2 1)).map
          (fun i => (([0,0,8,3, 0,0,0,2, 0,0,0,1, 0,0,0,2, 1,2,3,4] : List Nat).drop
            (16 + i * (1 * 2))).take (1 * 2))) :=
  (read_image_file_limit_decode [0,0,8,3, 0,0,0,2, 0,0,0,1, 0,0,0,2, 1,2,3,4]
    [0,0] 1 2 1 2 (by decide) (by decide) (by decide) (by decide) (by decide)
    (by decide) (by decide) (by decide)).1

/-- The image file of the C2 counterexample: big-endian header
`(0x803, 1, 0x10000, 0x10000)` followed by payload byte 5 and `2^32 - 1` zero
bytes, so the file holds exactly the declared `1 * 0x10000 * 0x10000 = 2^32`
payload bytes. -/
def wrapImageFile : List Nat :=
  0 :: 0 :: 8 :: 3 :: 0 :: 0 :: 0 :: 1 :: 0 :: 1 :: 0 :: 0 :: 0 :: 1 :: 0 :: 0 ::
    5 :: List.replicate (2^32 - 1) 0

/-- C2 (counterexample): the claim fails on the code when `rows*columns`
overflows `uint32_t`.  The file `wrapImageFile` satisfies every premise of
the claim — magic 0x803, `count = 1`, `rows = columns = 0x10000`, exactly
`count*rows*columns + 16` bytes (in exact arithmetic), a fresh container and
an image object of the declared `rows*columns` size — yet the decoder does
not return the claimed payload slice: the C++ inner-loop bound
`rows * columns` wraps to 0, so the produced image keeps its default contents
(all zeros) and holds none of the payload, whose first byte is 5. -/
theorem read_image_file_limit_decode_counterexample :
    (∀ b ∈ wrapImageFile, b < 256)
    ∧ bigEndian32 wrapImageFile 0 = 0x803
    ∧ bigEndian32 wrapImageFile 1 = 1
    ∧ bigEndian32 wrapImageFile 2 = 65536
    ∧ bigEndian32 wrapImageFile 3 = 65536
    ∧ 1 * 65536 * 65536 + 16 ≤ wrapImageFile.length
    ∧ (List.replicate (65536 * 65536) (0 : Nat)).length = 65536 * 65536
    ∧ read_mnist_image_file Endian.little true wrapImageFile 0
        (List.replicate (65536 * 65536) 0) []
      ≠ ([], (List.range (if (0 : Nat) = 0 then 1 else min 1 0)).map
          (fun i => (wrapImageFile.drop (16 + i * (65536 * 65536))).take
            (65536 * 65536))) := by
  have hb : ∀ b ∈ wrapImageFile, b < 256 := by
    intro b hbm
    simp only [wrapImageFile, List.mem_cons, List.mem_replicate] at hbm
    omega
  have hlen : wrapImageFile.length = 2^32 + 16 := by
    have h : wrapImageFile
        = [0, 0, 8, 3, 0, 0, 0, 1, 0, 1, 0, 0, 0, 1, 0, 0, 5]
            ++ List.replicate (2^32 - 1) 0 := rfl
    rw [h, List.length_append, List.length_replicate]
    norm_num
  have hsz : 1 * 65536 * 65536 + 16 ≤ wrapImageFile.length := by
    rw [hlen]
    norm_num
  have hres : read_mnist_image_file Endian.little true wrapImageFile 0
      (List.replicate (65536 * 65536) 0) []
      = ([], [List.replicate (65536 * 65536) 0]) := by
    rw [read_image_file_valid wrapImageFile (List.replicate (65536 * 65536) 0) 0
      1 65536 65536 hb (by decide) (by decide) (by decide) (by decide) hsz]
    norm_num [effective_count]
  refine ⟨hb, by decide, by decide, by decide, by decide, hsz,
    by rw [List.length_replicate], ?_⟩
  rw [hres]
  intro h
  have h0 : (((([], [List.replicate (65536 * 65536) 0]) :
      List String × List (List Nat)).2.getD 0 []).getD 0 99 : Nat) = 5 := by
    rw [h]
    decide
  have h1 : (((([], [List.replicate (65536 * 65536) 0]) :
      List String × List (List Nat)).2.getD 0 []).getD 0 99 : Nat) = 0 := by
    decide
  omega

/-- C4: for a well-formed label file (magic 0x801, enough bytes for the
declared count) decoded into a fresh container, the decoder produces exactly
`min(count, limit)` labels when `limit > 0` and exactly `count` labels when
`limit = 0`, and they are the first that many payload bytes in file order. -/
theorem read_label_file_limit_decode
    (buffer : List Nat) (limit count : Nat)
    (hb : ∀ b ∈ buffer, b < 256)
    (hm : bigEndian32 buffer 0 = 0x801)
    (hc : bigEndian32 buffer 1 = count)
    (hsz : count + 8 ≤ buffer.length) :
    read_mnist_label_file Endian.little true buffer limit []
      = ([], (buffer.drop 8).take (if limit = 0 then count else min count limit))
    ∧ (read_mnist_label_file Endian.little true buffer limit []).2.length
        = (if limit = 0 then count else min count limit) := by
  have heffle := effective_count_le count limit
  have heq : (List.range (effective_count count limit)).map (fun i => buffer.getD (8 + i) 0)
      = (buffer.drop 8).take (effective_count count limit) :=
    range_map_getD_eq_take_drop buffer 8 (effective_count count limit) (by omega)
  have hmain : read_mnist_label_file Endian.little true buffer limit []
      = ([], (buffer.drop 8).take (effective_count count limit)) := by
    rw [read_label_file_valid buffer limit count hb hm hc hsz, heq]
  rw [effective_count_eq] at hmain
  refine ⟨hmain, ?_⟩
  rw [hmain]
  simp only [List.length_take, List.length_drop]
  have hle : (if limit = 0 then count else min count limit) ≤ count := by
    split
    · omega
    · omega
  omega

theorem read_label_file_limit_decode_witness :
    read_mnist_label_file Endian.little true [0,0,8,1, 0,0,0,3, 7,2,9] 2 []
      = ([], (([0,0,8,1, 0,0,0,3, 7,2,9] : List Nat).drop 8).take
          (if (2 : Nat) = 0 then 3 else min 3 2)) :=
  (read_label_file_limit_decode [0,0,8,1, 0,0,0,3, 7,2,9] 2 3 (by decide)
    (by decide) (by decide) (by decide)).1

/-- C7: if the four input files are well-formed and each split's image file
declares the same item count as its label file, the assembled dataset has as
many training images as training labels and as many test images as test
labels; and this invariant is preserved by every subsequent `resize_training`
and `resize_test` call on any dataset that satisfies it. -/
theorem dataset_length_invariant
    (tib tlb teib telb : List Nat) (training_limit test_limit : Nat)
    (trainCount testCount trainRows trainCols testRows testCols : Nat)
    (hb1 : ∀ b ∈ tib, b < 256) (hb2 : ∀ b ∈ tlb, b < 256)
    (hb3 : ∀ b ∈ teib, b < 256) (hb4 : ∀ b ∈ telb, b < 256)
    (hm1 : bigEndian32 tib 0 = 0x803) (hm2 : bigEndian32 tlb 0 = 0x801)
    (hm3 : bigEndian32 teib 0 = 0x803) (hm4 : bigEndian32 telb 0 = 0x801)
    (hc1 : bigEndian32 tib 1 = trainCount) (hc2 : bigEndian32 tlb 1 = trainCount)
    (hc3 : bigEndian32 teib 1 = testCount) (hc4 : bigEndian32 telb 1 = testCount)
    (hr1 : bigEndian32 tib 2 = trainRows) (hcol1 : bigEndian32 tib 3 = trainCols)
    (hr3 : bigEndian32 teib 2 = testRows) (hcol3 : bigEndian32 teib 3 = testCols)
    (hs1 : trainCount * trainRows * trainCols + 16 ≤ tib.length)
    (hs2 : trainCount + 8 ≤ tlb.length)
    (hs3 : testCount * testRows * testCols + 16 ≤ teib.length)
    (hs4 : testCount + 8 ≤ telb.length) :
    ((read_dataset_direct Endian.little (true, tib) (true, tlb) (true, teib)
        (true, telb) training_limit test_limit).training_images.length
      = (read_dataset_direct Endian.little (true, tib) (true, tlb) (true, teib)
          (true, telb) training_limit test_limit).training_labels.length
    ∧ (read_dataset_direct Endian.little (true, tib) (true, tlb) (true, teib)
        (true, telb) training_limit test_limit).test_images.length
      = (read_dataset_direct Endian.little (true, tib) (true, tlb) (true, teib)
          (true, telb) training_limit test_limit).test_labels.length)
    ∧ ∀ (d : MNIST_dataset) (n : Nat),
        d.training_images.length = d.training_labels.length →
        d.test_images.length = d.test_labels.length →
        ((resize_training d n).training_images.length
            = (resize_training d n).training_labels.length
          ∧ (resize_training d n).test_images.length
            = (resize_training d n).test_labels.length)
        ∧ ((resize_test d n).training_images.length
            = (resize_test d n).training_labels.length
          ∧ (resize_test d n).test_images.length
            = (resize_test d n).test_labels.length) := by
  constructor
  · unfold read_dataset_direct
    constructor
    · simp only []
      rw [read_image_file_valid_length tib (List.replicate (1 * 28 * 28) 0)
          training_limit trainCount trainRows trainCols hb1 hm1 hc1 hr1 hcol1 hs1,
        read_label_file_valid_length tlb training_limit trainCount hb2 hm2 hc2 hs2]
    · simp only []
      rw [read_image_file_valid_length teib (List.replicate (1 * 28 * 28) 0)
          test_limit testCount testRows testCols hb3 hm3 hc3 hr3 hcol3 hs3,
        read_label_file_valid_length telb test_limit testCount hb4 hm4 hc4 hs4]
  · intro d n h1 h2
    constructor
    · unfold resize_training
      by_cases h : n < d.training_images.length
      · rw [if_pos h]
        refine ⟨?_, ?_⟩
        · simp [length_listResize]
        · simpa using h2
      · rw [if_neg h]
        exact ⟨h1, h2⟩
    · unfold resize_test
      by_cases h : n < d.test_images.length
      · rw [if_pos h]
        refine ⟨?_, ?_⟩
        · simpa using h1
        · simp [length_listResize]
      · rw [if_neg h]
        exact ⟨h1, h2⟩

theorem dataset_length_invariant_witness :
    (read_dataset_direct Endian.little
        (true, [0,0,8,3, 0,0,0,1, 0,0,0,1, 0,0,0,1, 5])
        (true, [0,0,8,1, 0,0,0,1, 3])
        (true, [0,0,8,3, 0,0,0,1, 0,0,0,1, 0,0,0,1, 6])
        (true, [0,0,8,1, 0,0,0,1, 2]) 0 0).training_images.length
      = (read_dataset_direct Endian.little
          (true, [0,0,8,3, 0,0,0,1, 0,0,0,1, 0,0,0,1, 5])
          (true, [0,0,8,1, 0,0,0,1, 3])
          (true, [0,0,8,3, 0,0,0,1, 0,0,0,1, 0,0,0,1, 6])
          (true, [0,0,8,1, 0,0,0,1, 2]) 0 0).training_labels.length :=
  ((dataset_length_invariant
      [0,0,8,3, 0,0,0,1, 0,0,0,1, 0,0,0,1, 5] [0,0,8,1, 0,0,0,1, 3]
      [0,0,8,3, 0,0,0,1, 0,0,0,1, 0,0,0,1, 6] [0,0,8,1, 0,0,0,1, 2] 0 0
      1 1 1 1 1 1
      (by decide) (by decide) (by decide) (by decide)
      (by decide) (by decide) (by decide) (by decide)
      (by decide) (by decide) (by decide) (by decide)
      (by decide) (by decide) (by decide) (by decide)
      (by decide) (by decide) (by decide) (by decide)).1).1

end mnist
